import Mathlib

/-
  Verification development for weekly_data.py (dataTrain repository).

  The file embeds, as executable Lean definitions, the parts of the program
  the claims are about:
    * the backward pagination loop `fetch_ticks_for_period`,
    * a simulated remote source `simSrc` (a source that answers a history
      request with the most recent available samples of the requested range),
    * the SQLite-backed store (`setup_database`, `save_ticks_to_db`),
    * the run orchestration (`fetch_all`),
    * the window/configuration resolver (`resolveWindow`, built from the
      `__init__` date logic and the `main` entry condition).

  Epochs are modelled as `Int` (POSIX seconds, Python ints).  Quotes are
  floating point numbers in the source; no claim computes with a quote, the
  value is only carried from a response into a row, so quotes are modelled by
  an opaque `Int` payload.  Console printing, wall-clock progress reporting
  and the inter-request sleeps have no bearing on any claim and are omitted.
-/

/-- One price sample (row of the `ticks` table). Mirrors the dict built at
weekly_data.py lines 159-164 and the table schema at lines 222-230. -/
structure Tick where
  epoch : Int
  quote : Int
  symbol : String
  pip_size : Nat
  deriving DecidableEq, Repr

/-- The `ticks_history` request sent at weekly_data.py lines 125-132. -/
structure HistoryReq where
  symbol : String
  adjust_start_time : Nat
  count : Nat
  end_ : Int
  start : Int
  style : String
  deriving DecidableEq, Repr

/-- The possible outcomes of one request/response round trip, as the loop
distinguishes them (weekly_data.py lines 134-151): an exception while
receiving, a response carrying an `error` field, a response without a
`history` field, or a proper page (`times`, `prices`, optional `pip_size`). -/
inductive HistoryResp where
  | connError
  | apiError (msg : String)
  | noHistory
  | ok (times : List Int) (prices : List Int) (pip : Option Nat)
  deriving DecidableEq, Repr

/-- Which exit took the loop out. `srcError` covers the three `break`s at
lines 138, 142, 146; `exhausted` the empty-page `break` at line 154;
`reachedStart` the `break` at line 174; `cursorDone` the `while` condition at
line 116 turning false; `fuelOut` is an artifact of the fuelled embedding and
is proved unreachable for sources that answer within the requested range. -/
inductive ExitKind where
  | srcError
  | exhausted
  | reachedStart
  | cursorDone
  | fuelOut
  deriving DecidableEq, Repr

/-- Result of the pagination loop: the collected ticks (the function's actual
return value, `all_ticks`) plus the exit kind as ghost information. -/
structure FetchResult where
  ticks : List Tick
  exit : ExitKind
  deriving DecidableEq, Repr

/-- The request built at weekly_data.py lines 125-132: fixed
`adjust_start_time = 1`, fixed `count = 5000`, fixed style, window start as
floor, the moving cursor as end. -/
def mkReq (symbol : String) (startT currentEnd : Int) : HistoryReq :=
  { symbol := symbol
    adjust_start_time := 1
    count := 5000
    end_ := currentEnd
    start := startT
    style := "ticks" }

/-- The per-page accumulation at weekly_data.py lines 157-164: zip `times`
with `prices`, keep the pairs whose epoch is inside `[startT, endT]`, and
build tick records with the page's pip size. -/
def pageTicks (symbol : String) (startT endT : Int) (pip : Nat)
    (times prices : List Int) : List Tick :=
  ((times.zip prices).filter (fun p => decide (startT ≤ p.1 ∧ p.1 ≤ endT))).map
    (fun p => { epoch := p.1, quote := p.2, symbol := symbol, pip_size := pip })

/-- The backward pagination loop of `fetch_ticks_for_period`
(weekly_data.py lines 116-177), with the remote source abstracted as a
function from requests to responses.  The `fuel` argument makes the loop a
total function; the code itself has no fuel, and for any source that answers
inside the requested range the fuel `(end - start) + 1` is proved sufficient
(the loop never reaches `fuelOut`). -/
def fetchLoop (src : HistoryReq → HistoryResp) (symbol : String)
    (startT endT : Int) : Nat → Int → List Tick → FetchResult
  | 0, _, acc => ⟨acc, .fuelOut⟩
  | fuel + 1, currentEnd, acc =>
    if startT < currentEnd then
      match src (mkReq symbol startT currentEnd) with
      | .connError => ⟨acc, .srcError⟩
      | .apiError _ => ⟨acc, .srcError⟩
      | .noHistory => ⟨acc, .srcError⟩
      | .ok times prices pip =>
        match times with
        | [] => ⟨acc, .exhausted⟩
        | oldest :: rest =>
          let acc' := acc ++ pageTicks symbol startT endT (pip.getD 2) (oldest :: rest) prices
          if oldest ≤ startT then ⟨acc', .reachedStart⟩
          else fetchLoop src symbol startT endT fuel (oldest - 1) acc'
    else ⟨acc, .cursorDone⟩

/-- `fetch_ticks_for_period` with the ghost exit kind: start the loop at
`current_end = end_time` with an empty accumulator (weekly_data.py
lines 110-116). -/
def fetchTicksForPeriodEx (src : HistoryReq → HistoryResp) (symbol : String)
    (startT endT : Int) : FetchResult :=
  fetchLoop src symbol startT endT ((endT - startT).toNat + 1) endT []

/-- The value `fetch_ticks_for_period` actually returns: `all_ticks`
(weekly_data.py line 181). -/
def fetch_ticks_for_period (src : HistoryReq → HistoryResp) (symbol : String)
    (startT endT : Int) : List Tick :=
  (fetchTicksForPeriodEx src symbol startT endT).ticks

/-- The epochs of a list of ticks, in collection order. -/
def epochsOf (l : List Tick) : List Int :=
  l.map Tick.epoch

/-- Last `n` elements of a list. -/
def takeLast (n : Nat) (l : List Int) : List Int :=
  l.drop (l.length - n)

/-- A simulated remote source holding the full history `hist` for the
instrument: a request is answered with the most recent
`min pageCap req.count` available samples of the requested range
`[req.start, req.end_]`, i.e. no page silently loses samples and a
non-exhausted range never returns fewer than the available count (capped by
the page size).  `quoteOf` supplies the price of each sample and `pip` the
reported precision. -/
def simSrc (hist : List Int) (quoteOf : Int → Int) (pip pageCap : Nat) :
    HistoryReq → HistoryResp :=
  fun req =>
    let avail := hist.filter (fun h => decide (req.start ≤ h ∧ h ≤ req.end_))
    let page := takeLast (min pageCap req.count) avail
    .ok page (page.map quoteOf) (some pip)

example :
    epochsOf (fetch_ticks_for_period (simSrc [3, 5, 7, 9, 12] (fun _ => 0) 2 2) "R_10" 4 10)
      = [7, 9, 5] := by decide

example :
    (fetchTicksForPeriodEx (simSrc [3, 5, 7, 9, 12] (fun _ => 0) 2 2) "R_10" 4 10).exit
      = ExitKind.cursorDone := by decide

example :
    epochsOf (fetch_ticks_for_period (simSrc [4, 5, 7, 9] (fun _ => 0) 2 2) "R_10" 4 10)
      = [7, 9, 4, 5] := by decide

example :
    (fetchTicksForPeriodEx (simSrc [4, 5, 7, 9] (fun _ => 0) 2 2) "R_10" 4 10).exit
      = ExitKind.reachedStart := by decide

/- ===================== Persistence store (SQLite file) ===================== -/

/-- Row of the (reserved, never populated) `trades` table
(weekly_data.py lines 232-239). -/
structure TradeRow where
  contract_id : Int
  start_time : String
  symbol : String
  contract_type : String
  deriving DecidableEq, Repr

/-- The SQLite file contents that matter to the program: the `ticks` table
(primary key `(epoch, symbol)`), the `trades` table and the `metadata`
key/value table (weekly_data.py lines 222-246). -/
structure Database where
  ticks : List Tick
  trades : List TradeRow
  metadata : List (String × String)
  deriving DecidableEq, Repr

/-- `INSERT OR REPLACE` of one metadata key/value pair. -/
def upsertMeta (m : List (String × String)) (kv : String × String) :
    List (String × String) :=
  if m.any (fun p => decide (p.1 = kv.1)) then
    m.map (fun p => if p.1 = kv.1 then kv else p)
  else m ++ [kv]

/-- `setup_database` (weekly_data.py lines 217-263): `CREATE TABLE IF NOT
EXISTS` leaves existing rows untouched, then the four metadata keys are
upserted with the run's values. -/
def setup_database (db : Database) (startIso endIso fetchedAt label : String) :
    Database :=
  { db with
      metadata :=
        [("start_time", startIso), ("end_time", endIso),
         ("fetched_at", fetchedAt), ("label", label)].foldl upsertMeta db.metadata }

/-- Does the tick table already hold a row with this `(epoch, symbol)`
primary key? -/
def hasTickKey (rows : List Tick) (e : Int) (sym : String) : Bool :=
  rows.any (fun r => decide (r.epoch = e ∧ r.symbol = sym))

/-- One step of `INSERT OR IGNORE`: the row is appended unless its primary
key is already present; the second component counts rows actually inserted
(SQLite's change counter). -/
def insertOrIgnoreTick (p : List Tick × Nat) (t : Tick) : List Tick × Nat :=
  if hasTickKey p.1 t.epoch t.symbol then p else (p.1 ++ [t], p.2 + 1)

/-- `save_ticks_to_db` (weekly_data.py lines 265-282): returns the updated
database together with `cursor.rowcount`, the number of rows actually
inserted.  An empty submission returns 0 immediately without touching the
database. -/
def save_ticks_to_db (db : Database) (ts : List Tick) : Database × Nat :=
  if ts.isEmpty then (db, 0)
  else
    let r := ts.foldl insertOrIgnoreTick (db.ticks, 0)
    ({ db with ticks := r.1 }, r.2)

/-- The per-instrument body of the `fetch_all` loop (weekly_data.py
lines 304-324): fetch the instrument's ticks, and save them if there are
any. -/
def processSymbol (src : HistoryReq → HistoryResp) (startT endT : Int)
    (db : Database) (symbol : String) : Database :=
  let ticks := fetch_ticks_for_period src symbol startT endT
  if ticks.isEmpty then db else (save_ticks_to_db db ticks).1

/-- `fetch_all` (weekly_data.py lines 284-326): set up the database (writing
the run metadata once, at the start), then process each instrument in turn.
The advisory `check_existing_data` read and all console reporting have no
effect on the store and are not modelled. -/
def fetch_all (src : HistoryReq → HistoryResp) (startT endT : Int)
    (startIso endIso fetchedAt label : String) (symbols : List String)
    (db0 : Database) : Database :=
  symbols.foldl (processSymbol src startT endT)
    (setup_database db0 startIso endIso fetchedAt label)

/-- The hard-coded instrument list of `get_evenodd_symbols`
(weekly_data.py lines 73-103), symbols only. -/
def evenodd_symbols : List String :=
  ["RDBEAR", "RDBULL", "JD10", "JD25", "JD50", "JD75", "JD100",
   "1HZ10V", "1HZ15V", "1HZ25V", "1HZ30V", "1HZ50V", "1HZ75V", "1HZ90V",
   "1HZ100V", "R_10", "R_25", "R_50", "R_75", "R_100"]

/- ===================== Window resolution and configuration ===================== -/

/-- Read decimal digits left to right onto an accumulator; `none` as soon as
a non-digit appears. -/
def digitsValAux : Nat → List Char → Option Nat
  | acc, [] => some acc
  | acc, c :: rest =>
    if '0' ≤ c ∧ c ≤ '9' then digitsValAux (acc * 10 + (c.toNat - 48)) rest
    else none

/-- Value of a nonempty all-digit character list, `none` otherwise. -/
def digitsVal : List Char → Option Nat
  | [] => none
  | c :: rest => digitsValAux 0 (c :: rest)

/-- Python's `int(s)` on the strings this program can meet: an optional sign
followed by decimal digits; anything else raises `ValueError`, modelled as
`none`.  (Surrounding whitespace and underscore separators, which Python also
accepts, never occur in a `WEEKS_AGO` setting this model is used for and are
not modelled.) -/
def pythonInt (s : String) : Option Int :=
  match s.data with
  | '-' :: rest => (digitsVal rest).map (fun n => -(n : Int))
  | '+' :: rest => (digitsVal rest).map (fun n => (n : Int))
  | l => (digitsVal l).map (fun n => (n : Int))

/-- A calendar date as `datetime.strptime(-, "%Y-%m-%d")` produces it. -/
structure Date where
  year : Nat
  month : Nat
  day : Nat
  deriving DecidableEq, Repr

/-- Gregorian leap-year test (as in Python's `calendar`/`datetime`). -/
def isLeap (y : Nat) : Bool :=
  decide (y % 4 = 0 ∧ (y % 100 ≠ 0 ∨ y % 400 = 0))

/-- Days in a month of the proleptic Gregorian calendar. -/
def daysInMonth (y m : Nat) : Nat :=
  if m = 2 then (if isLeap y then 29 else 28)
  else if m = 4 ∨ m = 6 ∨ m = 9 ∨ m = 11 then 30
  else 31

/-- Split a character list at the dashes. -/
def splitDash : List Char → List (List Char)
  | [] => [[]]
  | c :: rest =>
    if c = '-' then [] :: splitDash rest
    else
      match splitDash rest with
      | [] => [[c]]
      | g :: gs => (c :: g) :: gs

/-- `datetime.strptime(s, "%Y-%m-%d")`, date part: exactly four year digits,
one or two month digits valued 1..12, one or two day digits valid for the
month, year at least `MINYEAR = 1`.  Any other input raises `ValueError`,
modelled as `none`. -/
def parseYmd (s : String) : Option Date :=
  match splitDash s.data with
  | [ys, ms, ds] =>
    match digitsVal ys, digitsVal ms, digitsVal ds with
    | some y, some m, some d =>
      if ys.length = 4 ∧ ms.length ≤ 2 ∧ ds.length ≤ 2 ∧
          1 ≤ y ∧ 1 ≤ m ∧ m ≤ 12 ∧ 1 ≤ d ∧ d ≤ daysInMonth y m then
        some ⟨y, m, d⟩
      else none
    | _, _, _ => none
  | _ => none

/-- Days before the first of the month within a year
(`datetime._days_before_month`). -/
def daysBeforeMonth (y m : Nat) : Nat :=
  (List.range (m - 1)).foldl (fun a i => a + daysInMonth y (i + 1)) 0

/-- `date.toordinal()`: day number of the date in the proleptic Gregorian
calendar, day 1 being 0001-01-01. -/
def toordinal (dt : Date) : Nat :=
  365 * (dt.year - 1) + (dt.year - 1) / 4 + (dt.year - 1) / 400
    - (dt.year - 1) / 100 + daysBeforeMonth dt.year dt.month + dt.day

/-- A naive `datetime` as an absolute second count: 86400 · ordinal + seconds
of day.  `strptime` with a pure date format yields midnight. -/
def midnightSec (dt : Date) : Int :=
  86400 * (toordinal dt : Int)

/-- The window a run will use: `self.start_dt`, `self.end_dt` (as absolute
second counts) and `self.label` (weekly_data.py lines 29-47). -/
structure ResolvedWindow where
  start_dt : Int
  end_dt : Int
  label : String
  deriving DecidableEq, Repr

/-- Window resolution, combining `main`'s entry condition (weekly_data.py
lines 338-343: explicit dates are used only when both are nonempty) with the
`__init__` date logic (lines 29-43).  `now` is `datetime.now()` as an
absolute second count.  `none` models the constructor raising (a `strptime`
or `int` `ValueError`), i.e. a fatal configuration error. -/
def resolveWindow (start_date end_date weeks_ago : String) (now : Int) :
    Option ResolvedWindow :=
  if start_date ≠ "" ∧ end_date ≠ "" then
    match parseYmd start_date, parseYmd end_date with
    | some ds, some de =>
      some ⟨midnightSec ds, midnightSec de - 1, start_date ++ "_to_" ++ end_date⟩
    | _, _ => none
  else
    match (if weeks_ago ≠ "" then pythonInt weeks_ago else some 1) with
    | none => none
    | some w =>
      some ⟨now - 604800 * w - 604800, now - 604800 * w, "week_" ++ toString w⟩

/-- Seconds between 0001-01-01T00:00 and the POSIX epoch 1970-01-01T00:00:
`719163 * 86400`.  Converts a naive absolute second count to the POSIX
timestamp `int(dt.timestamp())` yields (timezone taken as UTC). -/
def posixOf (dtSec : Int) : Int :=
  dtSec - 62135683200

/-- `main` followed by `fetch_all`, store side only: resolve the
configuration; on a configuration error nothing runs (no store is touched),
otherwise the run executes against the resolved window. -/
def mainRun (src : HistoryReq → HistoryResp)
    (start_date end_date weeks_ago : String) (now : Int)
    (fetchedAt : String) (symbols : List String) (db0 : Database) :
    Option Database :=
  match resolveWindow start_date end_date weeks_ago now with
  | none => none
  | some w =>
    some (fetch_all src (posixOf w.start_dt) (posixOf w.end_dt)
      (toString w.start_dt) (toString w.end_dt) fetchedAt w.label symbols db0)

example : parseYmd "2024-01-01" = some ⟨2024, 1, 1⟩ := by decide

example : parseYmd "2023-02-29" = none := by decide

example : parseYmd "2024-02-29" = some ⟨2024, 2, 29⟩ := by decide

example : toordinal ⟨1970, 1, 1⟩ = 719163 := by decide

example : pythonInt "-12" = some (-12) := by decide

example : pythonInt "" = none := by decide

example : pythonInt "3x" = none := by decide

/- ===================== Loop step lemmas ===================== -/

theorem fetchLoop_stop {src : HistoryReq → HistoryResp} {sym : String}
    {startT endT : Int} {fuel : Nat} {c : Int} {acc : List Tick}
    (h : ¬ startT < c) :
    fetchLoop src sym startT endT (fuel + 1) c acc = ⟨acc, .cursorDone⟩ := by
  simp [fetchLoop, h]

theorem fetchLoop_connError {src : HistoryReq → HistoryResp} {sym : String}
    {startT endT : Int} {fuel : Nat} {c : Int} {acc : List Tick}
    (h : startT < c) (hs : src (mkReq sym startT c) = .connError) :
    fetchLoop src sym startT endT (fuel + 1) c acc = ⟨acc, .srcError⟩ := by
  simp [fetchLoop, h, hs]

theorem fetchLoop_apiError {src : HistoryReq → HistoryResp} {sym : String}
    {startT endT : Int} {fuel : Nat} {c : Int} {acc : List Tick} {msg : String}
    (h : startT < c) (hs : src (mkReq sym startT c) = .apiError msg) :
    fetchLoop src sym startT endT (fuel + 1) c acc = ⟨acc, .srcError⟩ := by
  simp [fetchLoop, h, hs]

theorem fetchLoop_noHistory {src : HistoryReq → HistoryResp} {sym : String}
    {startT endT : Int} {fuel : Nat} {c : Int} {acc : List Tick}
    (h : startT < c) (hs : src (mkReq sym startT c) = .noHistory) :
    fetchLoop src sym startT endT (fuel + 1) c acc = ⟨acc, .srcError⟩ := by
  simp [fetchLoop, h, hs]

theorem fetchLoop_okEmpty {src : HistoryReq → HistoryResp} {sym : String}
    {startT endT : Int} {fuel : Nat} {c : Int} {acc : List Tick}
    {ps : List Int} {pip : Option Nat}
    (h : startT < c) (hs : src (mkReq sym startT c) = .ok [] ps pip) :
    fetchLoop src sym startT endT (fuel + 1) c acc = ⟨acc, .exhausted⟩ := by
  simp [fetchLoop, h, hs]

theorem fetchLoop_okStop {src : HistoryReq → HistoryResp} {sym : String}
    {startT endT : Int} {fuel : Nat} {c : Int} {acc : List Tick}
    {t : Int} {ts ps : List Int} {pip : Option Nat}
    (h : startT < c) (hs : src (mkReq sym startT c) = .ok (t :: ts) ps pip)
    (ht : t ≤ startT) :
    fetchLoop src sym startT endT (fuel + 1) c acc =
      ⟨acc ++ pageTicks sym startT endT (pip.getD 2) (t :: ts) ps, .reachedStart⟩ := by
  simp [fetchLoop, h, hs, ht]

theorem fetchLoop_okStep {src : HistoryReq → HistoryResp} {sym : String}
    {startT endT : Int} {fuel : Nat} {c : Int} {acc : List Tick}
    {t : Int} {ts ps : List Int} {pip : Option Nat}
    (h : startT < c) (hs : src (mkReq sym startT c) = .ok (t :: ts) ps pip)
    (ht : ¬ t ≤ startT) :
    fetchLoop src sym startT endT (fuel + 1) c acc =
      fetchLoop src sym startT endT fuel (t - 1)
        (acc ++ pageTicks sym startT endT (pip.getD 2) (t :: ts) ps) := by
  simp [fetchLoop, h, hs, ht]

/-- The accumulator is never dropped: whatever is collected when the loop is
entered is a prefix of what the loop returns. -/
theorem fetchLoop_keeps_acc {src : HistoryReq → HistoryResp} {sym : String}
    {startT endT : Int} :
    ∀ (fuel : Nat) (c : Int) (acc : List Tick),
      acc <+: (fetchLoop src sym startT endT fuel c acc).ticks := by
  intro fuel
  induction fuel with
  | zero => intro c acc; exact ⟨[], List.append_nil acc⟩
  | succ n ih =>
    intro c acc
    by_cases h : startT < c
    · cases hs : src (mkReq sym startT c) with
      | connError => rw [fetchLoop_connError h hs]
      | apiError msg => rw [fetchLoop_apiError h hs]
      | noHistory => rw [fetchLoop_noHistory h hs]
      | ok times ps pip =>
        cases times with
        | nil => rw [fetchLoop_okEmpty h hs]
        | cons t ts =>
          by_cases ht : t ≤ startT
          · rw [fetchLoop_okStop h hs ht]
            exact ⟨_, rfl⟩
          · rw [fetchLoop_okStep h hs ht]
            exact List.IsPrefix.trans ⟨_, rfl⟩ (ih (t - 1) _)
    · rw [fetchLoop_stop h]

/-- A source is range-respecting when the oldest sample of a returned page
never exceeds the requested end instant (spec §4.2: a page holds samples
"ending at `end_instant`"). -/
def SrcTimesLe (src : HistoryReq → HistoryResp) (sym : String) (s : Int) : Prop :=
  ∀ (c t : Int) (ts ps : List Int) (pip : Option Nat),
    src (mkReq sym s c) = .ok (t :: ts) ps pip → t ≤ c

/-- Against a range-respecting source, fuel `(cursor - start) + 1` is enough:
the loop never runs out of fuel, i.e. it performs at most `cursor - start`
page requests. -/
theorem fetchLoop_no_fuelOut {src : HistoryReq → HistoryResp} {sym : String}
    {s e : Int} (hle : SrcTimesLe src sym s) :
    ∀ (fuel : Nat) (c : Int) (acc : List Tick), (c - s).toNat < fuel →
      (fetchLoop src sym s e fuel c acc).exit ≠ .fuelOut := by
  intro fuel
  induction fuel with
  | zero => intro c acc h; omega
  | succ n ih =>
    intro c acc hf
    by_cases h : s < c
    · cases hs : src (mkReq sym s c) with
      | connError => rw [fetchLoop_connError h hs]; simp
      | apiError msg => rw [fetchLoop_apiError h hs]; simp
      | noHistory => rw [fetchLoop_noHistory h hs]; simp
      | ok times ps pip =>
        cases times with
        | nil => rw [fetchLoop_okEmpty h hs]; simp
        | cons t ts =>
          by_cases ht : t ≤ s
          · rw [fetchLoop_okStop h hs ht]; simp
          · rw [fetchLoop_okStep h hs ht]
            apply ih
            have htc : t ≤ c := hle c t ts ps pip hs
            omega
    · rw [fetchLoop_stop h]; simp

/- ===================== Simulated source facts ===================== -/

/-- The samples of `hist` available in `[s, c]`. -/
def availIn (hist : List Int) (s c : Int) : List Int :=
  hist.filter (fun h => decide (s ≤ h ∧ h ≤ c))

/-- The page `simSrc` answers to a request for `[s, c]`. -/
def simPage (hist : List Int) (cap : Nat) (s c : Int) : List Int :=
  takeLast (min cap 5000) (availIn hist s c)

theorem simSrc_mkReq (hist : List Int) (f : Int → Int) (pip cap : Nat)
    (sym : String) (s c : Int) :
    simSrc hist f pip cap (mkReq sym s c) =
      .ok (simPage hist cap s c) ((simPage hist cap s c).map f) (some pip) := rfl

theorem mem_availIn {hist : List Int} {s c x : Int} :
    x ∈ availIn hist s c ↔ x ∈ hist ∧ s ≤ x ∧ x ≤ c := by
  simp [availIn, List.mem_filter, and_assoc]

/-- The answered page is a suffix of the available samples. -/
theorem simPage_suffix (hist : List Int) (cap : Nat) (s c : Int) :
    simPage hist cap s c <:+ availIn hist s c :=
  List.drop_suffix _ _

theorem simPage_subset {hist : List Int} {cap : Nat} {s c : Int} :
    ∀ x ∈ simPage hist cap s c, x ∈ availIn hist s c :=
  fun _ hx => (simPage_suffix hist cap s c).sublist.subset hx

/-- With a positive page size, the page is empty only when nothing is
available in the requested range. -/
theorem simPage_nil_iff {hist : List Int} {cap : Nat} {s c : Int}
    (hcap : 1 ≤ cap) :
    simPage hist cap s c = [] ↔ availIn hist s c = [] := by
  constructor
  · intro h
    have hlen := congrArg List.length h
    simp [simPage, takeLast] at hlen
    cases he : availIn hist s c with
    | nil => rfl
    | cons a l =>
      rw [he] at hlen
      simp at hlen
      omega
  · intro h
    simp [simPage, takeLast, h]

/-- `simSrc` is range-respecting. -/
theorem simSrc_times_le (hist : List Int) (f : Int → Int) (pip cap : Nat)
    (sym : String) (s : Int) : SrcTimesLe (simSrc hist f pip cap) sym s := by
  intro c t ts ps pp h
  rw [simSrc_mkReq] at h
  have hpage : simPage hist cap s c = t :: ts := by
    injection h
  have ht : t ∈ availIn hist s c := by
    apply simPage_subset
    rw [hpage]
    exact List.mem_cons_self t ts
  exact (mem_availIn.mp ht).2.2

/- ===================== Page tick lemmas ===================== -/

theorem epochsOf_append (a b : List Tick) :
    epochsOf (a ++ b) = epochsOf a ++ epochsOf b :=
  List.map_append _ a b

theorem epochsOf_cons (x : Tick) (l : List Tick) :
    epochsOf (x :: l) = x.epoch :: epochsOf l := rfl

theorem map_fst_zip_sublist : ∀ (ts ps : List Int),
    List.Sublist ((ts.zip ps).map Prod.fst) ts := by
  intro ts
  induction ts with
  | nil => intro ps; simp
  | cons a ts ih =>
    intro ps
    cases ps with
    | nil => simp
    | cons b ps =>
      simpa using List.Sublist.cons₂ a (ih ps)

/-- The epochs a page contributes form a sublist of the page's `times`. -/
theorem epochs_pageTicks_sublist (sym : String) (s e : Int) (pip : Nat)
    (times ps : List Int) :
    List.Sublist (epochsOf (pageTicks sym s e pip times ps)) times := by
  unfold pageTicks epochsOf
  rw [List.map_map]
  have hco :
      (Tick.epoch ∘ fun p : Int × Int =>
        ({ epoch := p.1, quote := p.2, symbol := sym, pip_size := pip } : Tick))
        = Prod.fst := rfl
  rw [hco]
  exact ((List.filter_sublist _).map Prod.fst).trans (map_fst_zip_sublist times ps)

/-- The epochs one page contributes are exactly the in-window times, the
times list truncated by the zip when fewer prices than times arrived. -/
theorem epochs_pageTicks_take (sym : String) (s e : Int) (pip : Nat) :
    ∀ (times ps : List Int),
      epochsOf (pageTicks sym s e pip times ps)
        = (times.take ps.length).filter (fun x => decide (s ≤ x ∧ x ≤ e)) := by
  intro times
  induction times with
  | nil =>
    intro ps
    simp [pageTicks, epochsOf]
  | cons a t ih =>
    intro ps
    cases ps with
    | nil => rfl
    | cons b ps =>
      have hz : pageTicks sym s e pip (a :: t) (b :: ps)
          = (List.filter (fun p => decide (s ≤ p.1 ∧ p.1 ≤ e))
              ((a, b) :: t.zip ps)).map
              (fun p => { epoch := p.1, quote := p.2, symbol := sym, pip_size := pip }) := rfl
      have hback : (List.filter (fun p => decide (s ≤ p.1 ∧ p.1 ≤ e)) (t.zip ps)).map
              (fun p => ({ epoch := p.1, quote := p.2, symbol := sym, pip_size := pip } : Tick))
          = pageTicks sym s e pip t ps := rfl
      rw [hz, List.filter_cons]
      by_cases ha : s ≤ a ∧ a ≤ e
      · have hd : decide (s ≤ (a, b).1 ∧ (a, b).1 ≤ e) = true := decide_eq_true ha
        rw [hd, if_pos rfl, List.map_cons, epochsOf_cons, hback, ih ps,
          List.length_cons, List.take_succ_cons, List.filter_cons,
          decide_eq_true ha, if_pos rfl]
      · have hd : decide (s ≤ (a, b).1 ∧ (a, b).1 ≤ e) = false := decide_eq_false ha
        rw [hd, if_neg (by simp), hback, ih ps,
          List.length_cons, List.take_succ_cons, List.filter_cons,
          decide_eq_false ha, if_neg (by simp)]

/-- Specialisation: when prices are positionally derived from the times (as
`simSrc` answers), the contributed epochs are exactly the in-window times. -/
theorem epochs_pageTicks_map (sym : String) (s e : Int) (pip : Nat)
    (f : Int → Int) (l : List Int) :
    epochsOf (pageTicks sym s e pip l (l.map f))
      = l.filter (fun x => decide (s ≤ x ∧ x ≤ e)) := by
  rw [epochs_pageTicks_take, List.length_map, List.take_length]

/- ===================== Completeness and soundness against `simSrc` ===================== -/

theorem mem_epochsOf_mono {l₁ l₂ : List Tick} {x : Int} (hp : l₁ <+: l₂)
    (hx : x ∈ epochsOf l₁) : x ∈ epochsOf l₂ :=
  (hp.sublist.map Tick.epoch).subset hx

theorem simPage_eq_drop (hist : List Int) (cap : Nat) (s c : Int) :
    simPage hist cap s c
      = (availIn hist s c).drop ((availIn hist s c).length - min cap 5000) := rfl

/-- Any available sample is either on the answered page or strictly older
than the page's oldest sample. -/
theorem simPage_cons_mem_or_lt {hist : List Int} {cap : Nat} {s c t : Int}
    {ts : List Int} (hsorted : hist.Pairwise (· < ·))
    (hpage : simPage hist cap s c = t :: ts) :
    ∀ x ∈ availIn hist s c, x ∈ t :: ts ∨ x < t := by
  intro x hx
  have hsortav : (availIn hist s c).Pairwise (· < ·) :=
    hsorted.sublist (List.filter_sublist _)
  have hsplit : (availIn hist s c).take ((availIn hist s c).length - min cap 5000)
      ++ (t :: ts) = availIn hist s c := by
    rw [← hpage, simPage_eq_drop]
    exact List.take_append_drop _ _
  rw [← hsplit] at hx hsortav
  rcases List.mem_append.mp hx with hx | hx
  · right
    have hcross := (List.pairwise_append.mp hsortav).2.2
    exact hcross x hx t (List.mem_cons_self t ts)
  · left; exact hx

/-- Completeness: every sample of the history strictly inside the window
that is not older than the cursor ends up among the collected epochs. -/
theorem fetchLoop_sim_complete {hist : List Int} {f : Int → Int}
    {pip cap : Nat} {sym : String} {s e : Int}
    (hcap : 1 ≤ cap) (hsorted : hist.Pairwise (· < ·)) :
    ∀ (fuel : Nat) (c : Int) (acc : List Tick),
      (c - s).toNat < fuel → c ≤ e →
      ∀ h ∈ hist, s < h → h ≤ c →
        h ∈ epochsOf (fetchLoop (simSrc hist f pip cap) sym s e fuel c acc).ticks := by
  intro fuel
  induction fuel with
  | zero => intro c acc hf; exact absurd hf (Nat.not_lt_zero _)
  | succ n ih =>
    intro c acc hf hce h hh hsh hhc
    have hc : s < c := lt_of_lt_of_le hsh hhc
    have hha : h ∈ availIn hist s c := mem_availIn.mpr ⟨hh, le_of_lt hsh, hhc⟩
    cases hpage : simPage hist cap s c with
    | nil =>
      exfalso
      have hav : availIn hist s c = [] := (simPage_nil_iff hcap).mp hpage
      rw [hav] at hha
      exact (List.not_mem_nil h) hha
    | cons t ts =>
      have hsrc : simSrc hist f pip cap (mkReq sym s c)
          = .ok (t :: ts) ((t :: ts).map f) (some pip) := by
        rw [simSrc_mkReq, hpage]
      have htav : t ∈ availIn hist s c :=
        simPage_subset t (by rw [hpage]; exact List.mem_cons_self t ts)
      have htc : t ≤ c := (mem_availIn.mp htav).2.2
      have hmov := simPage_cons_mem_or_lt hsorted hpage h hha
      have hwin : (fun x => decide (s ≤ x ∧ x ≤ e)) h = true := by
        simp only [decide_eq_true_eq]
        exact ⟨le_of_lt hsh, le_trans hhc hce⟩
      by_cases ht : t ≤ s
      · rw [fetchLoop_okStop hc hsrc ht]
        rcases hmov with hmem | hlt
        · rw [epochsOf_append]
          refine List.mem_append_right _ ?_
          rw [epochs_pageTicks_map]
          exact List.mem_filter.mpr ⟨hmem, hwin⟩
        · exact absurd hsh (by omega)
      · rw [fetchLoop_okStep hc hsrc ht]
        rcases hmov with hmem | hlt
        · refine mem_epochsOf_mono (fetchLoop_keeps_acc n (t - 1) _) ?_
          rw [epochsOf_append]
          refine List.mem_append_right _ ?_
          rw [epochs_pageTicks_map]
          exact List.mem_filter.mpr ⟨hmem, hwin⟩
        · exact ih (t - 1) _ (by omega) (by omega) h hh hsh (by omega)

/-- Soundness: every collected epoch is either inherited from the
accumulator or an available in-window sample. -/
theorem fetchLoop_sim_sound {hist : List Int} {f : Int → Int}
    {pip cap : Nat} {sym : String} {s e : Int} :
    ∀ (fuel : Nat) (c : Int) (acc : List Tick),
      ∀ x ∈ epochsOf (fetchLoop (simSrc hist f pip cap) sym s e fuel c acc).ticks,
        x ∈ epochsOf acc ∨ (x ∈ hist ∧ s ≤ x ∧ x ≤ e) := by
  intro fuel
  induction fuel with
  | zero => intro c acc x hx; exact Or.inl hx
  | succ n ih =>
    intro c acc x hx
    by_cases hc : s < c
    · cases hpage : simPage hist cap s c with
      | nil =>
        have hsrc : simSrc hist f pip cap (mkReq sym s c)
            = .ok [] [] (some pip) := by
          rw [simSrc_mkReq, hpage]; rfl
        rw [fetchLoop_okEmpty hc hsrc] at hx
        exact Or.inl hx
      | cons t ts =>
        have hsrc : simSrc hist f pip cap (mkReq sym s c)
            = .ok (t :: ts) ((t :: ts).map f) (some pip) := by
          rw [simSrc_mkReq, hpage]
        have hsplit : ∀ y ∈ epochsOf
            (acc ++ pageTicks sym s e ((some pip).getD 2) (t :: ts) ((t :: ts).map f)),
            y ∈ epochsOf acc ∨ (y ∈ hist ∧ s ≤ y ∧ y ≤ e) := by
          intro y hy
          rw [epochsOf_append, List.mem_append] at hy
          rcases hy with hy | hy
          · exact Or.inl hy
          · right
            rw [epochs_pageTicks_map] at hy
            obtain ⟨hmem, hcond⟩ := List.mem_filter.mp hy
            have hbd : s ≤ y ∧ y ≤ e := of_decide_eq_true hcond
            have hav : y ∈ availIn hist s c :=
              simPage_subset y (by rw [hpage]; exact hmem)
            exact ⟨(mem_availIn.mp hav).1, hbd⟩
        by_cases ht : t ≤ s
        · rw [fetchLoop_okStop hc hsrc ht] at hx
          exact hsplit x hx
        · rw [fetchLoop_okStep hc hsrc ht] at hx
          rcases ih (t - 1) _ x hx with hx' | hx'
          · exact hsplit x hx'
          · exact Or.inr hx'
    · rw [fetchLoop_stop hc] at hx
      exact Or.inl hx

/- ===================== Integer ranges (concrete histories) ===================== -/

/-- `[s, s + 1, ..., s + n - 1]`. -/
def intRange (s : Int) : Nat → List Int
  | 0 => []
  | n + 1 => s :: intRange (s + 1) n

theorem mem_intRange : ∀ (n : Nat) (s x : Int),
    x ∈ intRange s n ↔ s ≤ x ∧ x < s + n := by
  intro n
  induction n with
  | zero => intro s x; simp [intRange]
  | succ m ih =>
    intro s x
    simp [intRange, ih (s + 1) x]
    omega

theorem length_intRange : ∀ (n : Nat) (s : Int), (intRange s n).length = n := by
  intro n
  induction n with
  | zero => intro s; rfl
  | succ m ih => intro s; simp [intRange, ih (s + 1)]

theorem pairwise_intRange : ∀ (n : Nat) (s : Int),
    (intRange s n).Pairwise (· < ·) := by
  intro n
  induction n with
  | zero => intro s; exact List.Pairwise.nil
  | succ m ih =>
    intro s
    refine List.pairwise_cons.mpr ⟨?_, ih (s + 1)⟩
    intro y hy
    have := (mem_intRange m (s + 1) y).mp hy
    omega

/- ===================== Store lemmas ===================== -/

theorem insFold_extends : ∀ (ts : List Tick) (p : List Tick × Nat),
    p.1 <+: (ts.foldl insertOrIgnoreTick p).1 := by
  intro ts
  induction ts with
  | nil => intro p; exact ⟨[], List.append_nil _⟩
  | cons t ts ih =>
    intro p
    rw [List.foldl_cons]
    refine List.IsPrefix.trans ?_ (ih _)
    unfold insertOrIgnoreTick
    by_cases h : hasTickKey p.1 t.epoch t.symbol
    · rw [if_pos h]
    · rw [if_neg h]
      exact ⟨[t], rfl⟩

theorem hasTickKey_mono {l₁ l₂ : List Tick} {e : Int} {sym : String}
    (hpre : l₁ <+: l₂) (h : hasTickKey l₁ e sym = true) :
    hasTickKey l₂ e sym = true := by
  unfold hasTickKey at h ⊢
  obtain ⟨r, hr, hpred⟩ := List.any_eq_true.mp h
  exact List.any_eq_true.mpr ⟨r, hpre.sublist.subset hr, hpred⟩

theorem insertOrIgnoreTick_hasKey (p : List Tick × Nat) (t : Tick) :
    hasTickKey (insertOrIgnoreTick p t).1 t.epoch t.symbol = true := by
  unfold insertOrIgnoreTick
  by_cases h : hasTickKey p.1 t.epoch t.symbol
  · rw [if_pos h]; exact h
  · rw [if_neg h]
    unfold hasTickKey
    refine List.any_eq_true.mpr ⟨t, ?_, by simp⟩
    simp

theorem insFold_hasKey : ∀ (ts : List Tick) (p : List Tick × Nat),
    ∀ t ∈ ts, hasTickKey (ts.foldl insertOrIgnoreTick p).1 t.epoch t.symbol = true := by
  intro ts
  induction ts with
  | nil => intro p t ht; exact absurd ht (List.not_mem_nil t)
  | cons u ts ih =>
    intro p t ht
    rw [List.foldl_cons]
    rcases List.mem_cons.mp ht with rfl | ht
    · exact hasTickKey_mono (insFold_extends ts _) (insertOrIgnoreTick_hasKey p t)
    · exact ih _ t ht

theorem insFold_id : ∀ (ts : List Tick) (p : List Tick × Nat),
    (∀ t ∈ ts, hasTickKey p.1 t.epoch t.symbol = true) →
    ts.foldl insertOrIgnoreTick p = p := by
  intro ts
  induction ts with
  | nil => intro p _; rfl
  | cons u ts ih =>
    intro p hall
    rw [List.foldl_cons]
    have hu : insertOrIgnoreTick p u = p := by
      unfold insertOrIgnoreTick
      rw [if_pos (hall u (List.mem_cons_self u ts))]
    rw [hu]
    exact ih p (fun t ht => hall t (List.mem_cons_of_mem u ht))

theorem insFold_count : ∀ (ts : List Tick) (p : List Tick × Nat),
    (ts.foldl insertOrIgnoreTick p).1.length + p.2
      = (ts.foldl insertOrIgnoreTick p).2 + p.1.length := by
  intro ts
  induction ts with
  | nil => intro p; simp only [List.foldl_nil]; omega
  | cons u ts ih =>
    intro p
    rw [List.foldl_cons]
    by_cases h : hasTickKey p.1 u.epoch u.symbol
    · have hstep : insertOrIgnoreTick p u = p := by
        unfold insertOrIgnoreTick; rw [if_pos h]
      rw [hstep]; exact ih p
    · have hstep : insertOrIgnoreTick p u = (p.1 ++ [u], p.2 + 1) := by
        unfold insertOrIgnoreTick; rw [if_neg h]
      rw [hstep]
      have hih := ih (p.1 ++ [u], p.2 + 1)
      simp only [List.length_append, List.length_cons, List.length_nil] at hih ⊢
      omega

theorem save_ticks_eq (db : Database) (ts : List Tick)
    (h : ¬ ts.isEmpty = true) :
    save_ticks_to_db db ts
      = ({ db with ticks := (ts.foldl insertOrIgnoreTick (db.ticks, 0)).1 },
         (ts.foldl insertOrIgnoreTick (db.ticks, 0)).2) := by
  unfold save_ticks_to_db
  rw [if_neg h]

theorem processSymbol_frame (src : HistoryReq → HistoryResp) (s e : Int)
    (db : Database) (sym : String) :
    db.ticks <+: (processSymbol src s e db sym).ticks ∧
    (processSymbol src s e db sym).metadata = db.metadata := by
  unfold processSymbol
  by_cases h : (fetch_ticks_for_period src sym s e).isEmpty
  · rw [if_pos h]
    exact ⟨⟨[], List.append_nil _⟩, rfl⟩
  · rw [if_neg h, save_ticks_eq db _ h]
    refine ⟨?_, rfl⟩
    show db.ticks <+:
      ((fetch_ticks_for_period src sym s e).foldl insertOrIgnoreTick (db.ticks, 0)).1
    exact insFold_extends (fetch_ticks_for_period src sym s e) (db.ticks, 0)

theorem foldProcess_frame (src : HistoryReq → HistoryResp) (s e : Int) :
    ∀ (syms : List String) (db : Database),
      db.ticks <+: (syms.foldl (processSymbol src s e) db).ticks ∧
      (syms.foldl (processSymbol src s e) db).metadata = db.metadata := by
  intro syms
  induction syms with
  | nil => intro db; exact ⟨⟨[], List.append_nil _⟩, rfl⟩
  | cons sym syms ih =>
    intro db
    rw [List.foldl_cons]
    obtain ⟨h1, h2⟩ := processSymbol_frame src s e db sym
    obtain ⟨h1', h2'⟩ := ih (processSymbol src s e db sym)
    exact ⟨h1.trans h1', h2'.trans h2⟩

/- ===================== Parse inversion ===================== -/

theorem parseYmd_inv {str : String} {dt : Date} (h : parseYmd str = some dt) :
    1 ≤ dt.year ∧ 1 ≤ dt.month ∧ dt.month ≤ 12 ∧ 1 ≤ dt.day ∧
      dt.day ≤ daysInMonth dt.year dt.month := by
  unfold parseYmd at h
  split at h
  · split at h
    · split at h
      · rename_i hcond
        injection h with h
        subst h
        exact ⟨hcond.2.2.2.1, hcond.2.2.2.2.1, hcond.2.2.2.2.2.1,
          hcond.2.2.2.2.2.2.1, hcond.2.2.2.2.2.2.2⟩
      · exact absurd h (by simp)
    · exact absurd h (by simp)
  · exact absurd h (by simp)

theorem parseYmd_toordinal_pos {str : String} {dt : Date}
    (h : parseYmd str = some dt) : 1 ≤ toordinal dt := by
  have hd := (parseYmd_inv h).2.2.2.1
  unfold toordinal
  omega

theorem parseYmd_ne_empty {str : String} {dt : Date}
    (h : parseYmd str = some dt) : str ≠ "" := by
  intro he
  rw [he] at h
  have : parseYmd "" = none := rfl
  rw [this] at h
  exact Option.noConfusion h

/- ===================== No-duplicate invariant (C6) ===================== -/

/-- A source is page-well-formed when each returned page lists samples of the
requested range in strictly increasing order (oldest first, one sample per
instant, none newer than the requested end). -/
def SrcPagesOk (src : HistoryReq → HistoryResp) (sym : String) (s : Int) : Prop :=
  ∀ (c : Int) (times ps : List Int) (pip : Option Nat),
    src (mkReq sym s c) = .ok times ps pip →
      times.Pairwise (· < ·) ∧ ∀ x ∈ times, x ≤ c

theorem fetchLoop_epochs_nodup {src : HistoryReq → HistoryResp} {sym : String}
    {s e : Int} (hok : SrcPagesOk src sym s) :
    ∀ (fuel : Nat) (c : Int) (acc : List Tick),
      (epochsOf acc).Pairwise (· ≠ ·) → (∀ x ∈ epochsOf acc, c < x) →
      (epochsOf (fetchLoop src sym s e fuel c acc).ticks).Pairwise (· ≠ ·) := by
  intro fuel
  induction fuel with
  | zero => intro c acc hacc _; exact hacc
  | succ n ih =>
    intro c acc hacc habove
    by_cases h : s < c
    · cases hs : src (mkReq sym s c) with
      | connError => rw [fetchLoop_connError h hs]; exact hacc
      | apiError msg => rw [fetchLoop_apiError h hs]; exact hacc
      | noHistory => rw [fetchLoop_noHistory h hs]; exact hacc
      | ok times ps pip =>
        cases times with
        | nil => rw [fetchLoop_okEmpty h hs]; exact hacc
        | cons t ts =>
          obtain ⟨hsort, hle⟩ := hok c (t :: ts) ps pip hs
          have hsub := epochs_pageTicks_sublist sym s e (pip.getD 2) (t :: ts) ps
          have hpair' :
              (epochsOf (acc ++ pageTicks sym s e (pip.getD 2) (t :: ts) ps)).Pairwise
                (· ≠ ·) := by
            rw [epochsOf_append, List.pairwise_append]
            refine ⟨hacc, (hsort.imp ne_of_lt).sublist hsub, ?_⟩
            intro x hx y hy
            have hyc : y ≤ c := hle y (hsub.subset hy)
            have hxc : c < x := habove x hx
            omega
          have habove' :
              ∀ x ∈ epochsOf (acc ++ pageTicks sym s e (pip.getD 2) (t :: ts) ps),
                t - 1 < x := by
            intro x hx
            rw [epochsOf_append, List.mem_append] at hx
            rcases hx with hx | hx
            · have := habove x hx
              have : t ≤ c := hle t (List.mem_cons_self t ts)
              omega
            · have hxm : x ∈ t :: ts := hsub.subset hx
              rcases List.mem_cons.mp hxm with rfl | hxm
              · omega
              · have : t < x := (List.pairwise_cons.mp hsort).1 x hxm
                omega
          by_cases ht : t ≤ s
          · rw [fetchLoop_okStop h hs ht]
            exact hpair'
          · rw [fetchLoop_okStep h hs ht]
            exact ih (t - 1) _ hpair' habove'
    · rw [fetchLoop_stop h]; exact hacc

/-- Pages of the simulated source are strictly increasing and within the
requested range. -/
theorem simSrc_pages_ok (hist : List Int) (f : Int → Int) (pip cap : Nat)
    (sym : String) (s : Int) (hsorted : hist.Pairwise (· < ·)) :
    SrcPagesOk (simSrc hist f pip cap) sym s := by
  intro c times ps pp h
  rw [simSrc_mkReq] at h
  have hpage : simPage hist cap s c = times := by injection h
  subst hpage
  constructor
  · exact hsorted.sublist
      ((simPage_suffix hist cap s c).sublist.trans (List.filter_sublist _))
  · intro x hx
    exact (mem_availIn.mp (simPage_subset x hx)).2.2

/- ===================== Claim theorems ===================== -/

/-- C2 (confirmed): for every window and every range-respecting source, the
pagination loop of `fetch_ticks_for_period` terminates: whenever a non-empty
page arrives, the cursor becomes the page's oldest epoch minus one, hence
strictly smaller; the loop condition is `cursor > window.start`, so the loop
performs at most `window.end - window.start` page requests — within the fuel
`(end - start) + 1` of the embedding, the loop never runs out of fuel. -/
theorem claim_C2_termination (src : HistoryReq → HistoryResp) (sym : String)
    (s e : Int) (hle : SrcTimesLe src sym s) :
    (∀ (c t : Int) (ts ps : List Int) (pip : Option Nat), s < c →
        src (mkReq sym s c) = .ok (t :: ts) ps pip → t - 1 < c) ∧
    (fetchTicksForPeriodEx src sym s e).exit ≠ ExitKind.fuelOut := by
  constructor
  · intro c t ts ps pip hc hsrc
    have := hle c t ts ps pip hsrc
    omega
  · exact fetchLoop_no_fuelOut hle _ e [] (by omega)

theorem claim_C2_termination_witness :
    (fetchTicksForPeriodEx (simSrc [3] (fun _ => 0) 2 5) "R_10" 0 10).exit
      ≠ ExitKind.fuelOut :=
  (claim_C2_termination (simSrc [3] (fun _ => 0) 2 5) "R_10" 0 10
    (simSrc_times_le [3] (fun _ => 0) 2 5 "R_10" 0)).2

/-- C3 (confirmed): `save_ticks_to_db` is idempotent over the
`(epoch, symbol)` primary key: saving the same ticks a second time changes
nothing and reports 0 rows inserted; the reported count is exactly the growth
of the tick table; and the reported count can differ from the number of
submitted rows (a fully duplicate batch of one row reports 0). -/
theorem claim_C3_idempotent (db : Database) (ts : List Tick) :
    save_ticks_to_db (save_ticks_to_db db ts).1 ts = ((save_ticks_to_db db ts).1, 0) ∧
    (save_ticks_to_db db ts).2 + db.ticks.length
      = (save_ticks_to_db db ts).1.ticks.length ∧
    (save_ticks_to_db ⟨[⟨0, 1, "R_10", 2⟩], [], []⟩ [⟨0, 1, "R_10", 2⟩]).2
      ≠ ([⟨0, 1, "R_10", 2⟩] : List Tick).length := by
  refine ⟨?_, ?_, by decide⟩
  · by_cases hemp : ts.isEmpty = true
    · have h1 : save_ticks_to_db db ts = (db, 0) := by
        unfold save_ticks_to_db; rw [if_pos hemp]
      rw [h1]
      show save_ticks_to_db db ts = (db, 0)
      exact h1
    · have hkeys : ∀ t ∈ ts,
          hasTickKey (ts.foldl insertOrIgnoreTick (db.ticks, 0)).1 t.epoch t.symbol
            = true :=
        fun t ht => insFold_hasKey ts (db.ticks, 0) t ht
      have hfold : ts.foldl insertOrIgnoreTick
          ((ts.foldl insertOrIgnoreTick (db.ticks, 0)).1, 0)
          = ((ts.foldl insertOrIgnoreTick (db.ticks, 0)).1, 0) :=
        insFold_id ts _ hkeys
      have h2 : save_ticks_to_db
          ({ db with ticks := (ts.foldl insertOrIgnoreTick (db.ticks, 0)).1 }) ts
          = ({ db with ticks := (ts.foldl insertOrIgnoreTick (db.ticks, 0)).1 }, 0) := by
        rw [save_ticks_eq _ ts hemp]
        show ({ db with
                ticks := (ts.foldl insertOrIgnoreTick
                  ((ts.foldl insertOrIgnoreTick (db.ticks, 0)).1, 0)).1 },
              (ts.foldl insertOrIgnoreTick
                ((ts.foldl insertOrIgnoreTick (db.ticks, 0)).1, 0)).2) = _
        rw [hfold]
      rw [save_ticks_eq db ts hemp]
      show save_ticks_to_db
        { db with ticks := (ts.foldl insertOrIgnoreTick (db.ticks, 0)).1 } ts
        = ({ db with ticks := (ts.foldl insertOrIgnoreTick (db.ticks, 0)).1 }, 0)
      exact h2
  · by_cases hemp : ts.isEmpty = true
    · have h1 : save_ticks_to_db db ts = (db, 0) := by
        unfold save_ticks_to_db; rw [if_pos hemp]
      rw [h1]
      simp
    · rw [save_ticks_eq db ts hemp]
      have hcount : (ts.foldl insertOrIgnoreTick (db.ticks, 0)).1.length + 0
          = (ts.foldl insertOrIgnoreTick (db.ticks, 0)).2 + db.ticks.length :=
        insFold_count ts (db.ticks, 0)
      show (ts.foldl insertOrIgnoreTick (db.ticks, 0)).2 + db.ticks.length
        = (ts.foldl insertOrIgnoreTick (db.ticks, 0)).1.length
      omega

/-- C4 (confirmed): each of the three per-page failure kinds — transport
error while receiving the response, response carrying an application error,
response without a `history` field — makes the loop return exactly the ticks
collected so far (never discarded), flagged as a source error for this
instrument only; and the per-instrument iteration of `fetch_all` continues
with the remaining instruments whatever happened on the current one. -/
theorem claim_C4_partial_isolation (src : HistoryReq → HistoryResp)
    (sym : String) (s e : Int) (fuel : Nat) (c : Int) (acc : List Tick)
    (msg startIso endIso fetchedAt label : String)
    (pre rest : List String) (db0 : Database) :
    (s < c → src (mkReq sym s c) = .connError →
      fetchLoop src sym s e (fuel + 1) c acc = ⟨acc, .srcError⟩) ∧
    (s < c → src (mkReq sym s c) = .apiError msg →
      fetchLoop src sym s e (fuel + 1) c acc = ⟨acc, .srcError⟩) ∧
    (s < c → src (mkReq sym s c) = .noHistory →
      fetchLoop src sym s e (fuel + 1) c acc = ⟨acc, .srcError⟩) ∧
    fetch_all src s e startIso endIso fetchedAt label (pre ++ sym :: rest) db0
      = rest.foldl (processSymbol src s e)
          (processSymbol src s e
            (fetch_all src s e startIso endIso fetchedAt label pre db0) sym) := by
  refine ⟨fun h hs => fetchLoop_connError h hs,
          fun h hs => fetchLoop_apiError h hs,
          fun h hs => fetchLoop_noHistory h hs, ?_⟩
  unfold fetch_all
  rw [List.foldl_append, List.foldl_cons]

/-- A source that always fails at the transport level. -/
def connErrSrc : HistoryReq → HistoryResp := fun _ => .connError

theorem claim_C4_partial_isolation_witness :
    fetchLoop connErrSrc "R_10" 0 10 (3 + 1) 7 [] = ⟨[], .srcError⟩ :=
  (claim_C4_partial_isolation connErrSrc "R_10" 0 10 3 7 [] "m" "a" "b" "c" "d"
    [] [] ⟨[], [], []⟩).1 (by decide) rfl

/-- C5 (confirmed): whatever any source does on later instruments, the tick
rows committed after processing a first group of instruments are a prefix of
(hence untouched inside) the final tick table, and the metadata written by
`setup_database` at the start of the run is never modified afterwards.  In
particular a failure on instrument K neither removes nor modifies rows
committed for instruments 1..K-1, nor the run metadata. -/
theorem claim_C5_committed_frame (src : HistoryReq → HistoryResp) (s e : Int)
    (startIso endIso fetchedAt label : String) (syms₁ syms₂ : List String)
    (db0 : Database) :
    (fetch_all src s e startIso endIso fetchedAt label syms₁ db0).ticks <+:
      (fetch_all src s e startIso endIso fetchedAt label (syms₁ ++ syms₂) db0).ticks ∧
    (fetch_all src s e startIso endIso fetchedAt label (syms₁ ++ syms₂) db0).metadata
      = (fetch_all src s e startIso endIso fetchedAt label syms₁ db0).metadata ∧
    (fetch_all src s e startIso endIso fetchedAt label syms₁ db0).metadata
      = (setup_database db0 startIso endIso fetchedAt label).metadata := by
  unfold fetch_all
  rw [List.foldl_append]
  obtain ⟨h1, h2⟩ := foldProcess_frame src s e syms₂
    (syms₁.foldl (processSymbol src s e)
      (setup_database db0 startIso endIso fetchedAt label))
  obtain ⟨h1', h2'⟩ := foldProcess_frame src s e syms₁
    (setup_database db0 startIso endIso fetchedAt label)
  exact ⟨h1, h2, h2'⟩

/-- C6 (confirmed): against any source whose pages list one sample per
instant in increasing order within the requested range, a single pagination
run never collects two ticks with the same epoch: successive requests end at
the previous page's oldest epoch minus one, so the pages' epoch ranges are
pairwise disjoint. -/
theorem claim_C6_no_duplicate_epochs (src : HistoryReq → HistoryResp)
    (sym : String) (s e : Int) (hok : SrcPagesOk src sym s) :
    (epochsOf (fetch_ticks_for_period src sym s e)).Pairwise (· ≠ ·) := by
  unfold fetch_ticks_for_period fetchTicksForPeriodEx
  exact fetchLoop_epochs_nodup hok _ e [] List.Pairwise.nil (by intro x hx; simp [epochsOf] at hx)

theorem claim_C6_no_duplicate_epochs_witness :
    (epochsOf (fetch_ticks_for_period (simSrc [2, 5] (fun _ => 0) 2 3) "R_10" 0 10)).Pairwise
      (· ≠ ·) :=
  claim_C6_no_duplicate_epochs (simSrc [2, 5] (fun _ => 0) 2 3) "R_10" 0 10
    (simSrc_pages_ok [2, 5] (fun _ => 0) 2 3 "R_10" 0 (by decide))

/-- C9 (confirmed): an empty page ends the loop as ordinary exhaustion
(ticks kept, exit `exhausted`, not an error), and a window holding no
available sample at all yields the empty result with a non-error exit. -/
theorem claim_C9_empty_page_exhaustion (src : HistoryReq → HistoryResp)
    (sym : String) (s e : Int) (fuel : Nat) (c : Int) (acc : List Tick)
    (ps : List Int) (pip : Option Nat) (hist : List Int) (f : Int → Int)
    (pip2 cap : Nat) :
    (s < c → src (mkReq sym s c) = .ok [] ps pip →
      fetchLoop src sym s e (fuel + 1) c acc = ⟨acc, .exhausted⟩) ∧
    (availIn hist s e = [] →
      (fetchTicksForPeriodEx (simSrc hist f pip2 cap) sym s e).ticks = [] ∧
      (fetchTicksForPeriodEx (simSrc hist f pip2 cap) sym s e).exit ≠ .srcError ∧
      (fetchTicksForPeriodEx (simSrc hist f pip2 cap) sym s e).exit ≠ .fuelOut) := by
  refine ⟨fun h hs => fetchLoop_okEmpty h hs, ?_⟩
  intro hav
  have hpage : simPage hist cap s e = [] := by
    unfold simPage takeLast
    rw [hav]
    simp
  unfold fetchTicksForPeriodEx
  by_cases hse : s < e
  · have hsrc : simSrc hist f pip2 cap (mkReq sym s e) = .ok [] [] (some pip2) := by
      rw [simSrc_mkReq, hpage]
      rfl
    rw [fetchLoop_okEmpty hse hsrc]
    exact ⟨rfl, by simp, by simp⟩
  · rw [fetchLoop_stop hse]
    exact ⟨rfl, by simp, by simp⟩

theorem claim_C9_empty_page_exhaustion_witness :
    (fetchTicksForPeriodEx (simSrc [99] (fun _ => 7) 2 4) "R_10" 0 10).ticks = [] :=
  ((claim_C9_empty_page_exhaustion (simSrc [99] (fun _ => 7) 2 4) "R_10" 0 10
    1 5 [] [] none [99] (fun _ => 7) 2 4).2 (by decide)).1

/-- C7 (confirmed): for every valid date pair in `YYYY-MM-DD` form with the
end date after the start date, the resolved window starts at midnight of the
start date and ends at midnight of the end date minus one second (23:59:59 of
the previous day), so no instant of the nominal end date lies in the
window. -/
theorem claim_C7_date_window (ss se wa : String) (ds de : Date) (now : Int)
    (hs : parseYmd ss = some ds) (he : parseYmd se = some de)
    (hlt : toordinal ds < toordinal de) :
    resolveWindow ss se wa now
      = some ⟨midnightSec ds, midnightSec de - 1, ss ++ "_to_" ++ se⟩ ∧
    (midnightSec de - 1) / 86400 = (toordinal de : Int) - 1 ∧
    (midnightSec de - 1) % 86400 = 86399 ∧
    ∀ t : Int, midnightSec ds ≤ t → t ≤ midnightSec de - 1 → t < midnightSec de := by
  have hne1 : ss ≠ "" := parseYmd_ne_empty hs
  have hne2 : se ≠ "" := parseYmd_ne_empty he
  have hpos : 1 ≤ toordinal de := parseYmd_toordinal_pos he
  refine ⟨?_, ?_, ?_, ?_⟩
  · unfold resolveWindow
    rw [if_pos ⟨hne1, hne2⟩, hs, he]
  · unfold midnightSec
    omega
  · unfold midnightSec
    omega
  · intro t h1 h2
    omega

theorem claim_C7_date_window_witness :
    resolveWindow "2024-01-01" "2024-01-08" "" 0
      = some ⟨midnightSec ⟨2024, 1, 1⟩, midnightSec ⟨2024, 1, 8⟩ - 1,
              "2024-01-01" ++ "_to_" ++ "2024-01-08"⟩ :=
  (claim_C7_date_window "2024-01-01" "2024-01-08" "" ⟨2024, 1, 1⟩ ⟨2024, 1, 8⟩ 0
    (by decide) (by decide) (by decide)).1

/-- C8 (corrected): the claim that a zero or negative `WEEKS_AGO` is rejected
is false — `int(WEEKS_AGO)` succeeds on any signed decimal string and the
window is produced; here `WEEKS_AGO = "0"` yields the window
`[now - 1 week, now]` labelled `week_0`, and `WEEKS_AGO = "-2"` a window
ending two weeks in the future, with no error. -/
theorem claim_C8_counterexample :
    resolveWindow "" "" "0" 1700000000
        = some ⟨1700000000 - 604800 * 0 - 604800, 1700000000 - 604800 * 0,
                "week_" ++ toString (0 : Int)⟩ ∧
    resolveWindow "" "" "-2" 1700000000
        = some ⟨1700000000 - 604800 * (-2) - 604800, 1700000000 - 604800 * (-2),
                "week_" ++ toString (-2 : Int)⟩ := by
  constructor <;> rfl

/-- C8 (amended): what does hold on the code: a `WEEKS_AGO` string that is
not a decimal integer makes the constructor raise before any network or
store activity (the run produces nothing), while any string Python's `int`
accepts — including `"0"` and negatives — is taken as is and produces the
window `[now - 7·w days - 7 days, now - 7·w days]` labelled `week_w`. -/
theorem claim_C8_weeks_validation (src : HistoryReq → HistoryResp)
    (w fetchedAt : String) (k now : Int) (symbols : List String)
    (db0 : Database) :
    (w ≠ "" → pythonInt w = none →
      resolveWindow "" "" w now = none ∧
      mainRun src "" "" w now fetchedAt symbols db0 = none) ∧
    (pythonInt w = some k →
      resolveWindow "" "" w now
        = some ⟨now - 604800 * k - 604800, now - 604800 * k,
                "week_" ++ toString k⟩) := by
  constructor
  · intro hw hnone
    have hres : resolveWindow "" "" w now = none := by
      unfold resolveWindow
      rw [if_neg (by simp)]
      rw [if_pos hw, hnone]
    refine ⟨hres, ?_⟩
    unfold mainRun
    rw [hres]
  · intro hsome
    by_cases hw : w = ""
    · subst hw
      have : pythonInt "" = none := rfl
      rw [this] at hsome
      exact Option.noConfusion hsome
    · unfold resolveWindow
      rw [if_neg (by simp)]
      rw [if_pos hw, hsome]

theorem claim_C8_weeks_validation_witness :
    resolveWindow "" "" "abc" 5 = none ∧
    resolveWindow "" "" "3" 5
      = some ⟨5 - 604800 * 3 - 604800, 5 - 604800 * 3, "week_" ++ toString (3 : Int)⟩ :=
  ⟨((claim_C8_weeks_validation connErrSrc "abc" "x" 0 5 [] ⟨[], [], []⟩).1
      (by decide) (by decide)).1,
   (claim_C8_weeks_validation connErrSrc "3" "x" 3 5 [] ⟨[], [], []⟩).2 (by decide)⟩

/-- C10 (confirmed): when exactly one of the two dates is supplied (the other
empty), no configuration error is raised: the resolver behaves exactly as if
neither date had been given — weeks-ago mode — and with `WEEKS_AGO` unset the
default offset of one week applies, producing the `week_1` window. -/
theorem claim_C10_single_date_fallback (sd ed wa : String) (now : Int)
    (h : sd = "" ∨ ed = "") :
    resolveWindow sd ed wa now = resolveWindow "" "" wa now ∧
    (wa = "" → resolveWindow sd ed wa now
      = some ⟨now - 604800 * 1 - 604800, now - 604800 * 1,
              "week_" ++ toString (1 : Int)⟩) := by
  have hcond : ¬ (sd ≠ "" ∧ ed ≠ "") := by
    rcases h with h | h <;> simp [h]
  constructor
  · unfold resolveWindow
    rw [if_neg hcond,
      if_neg (show ¬ (("" : String) ≠ "" ∧ ("" : String) ≠ "") by simp)]
  · intro hwa
    subst hwa
    unfold resolveWindow
    rw [if_neg hcond,
      if_neg (show ¬ (("" : String) ≠ "") by simp)]

theorem claim_C10_single_date_fallback_witness :
    resolveWindow "2024-01-01" "" "" 1700000000
      = some ⟨1700000000 - 604800 * 1 - 604800, 1700000000 - 604800 * 1,
              "week_" ++ toString (1 : Int)⟩ :=
  (claim_C10_single_date_fallback "2024-01-01" "" "" 1700000000
    (Or.inr rfl)).2 rfl

/-- C1 (amended): against a simulated source that answers each request with
the most recent `min pageCap 5000` available samples of the requested range
(no silent loss, never fewer than available for a non-exhausted range), and
for every page size `pageCap ≥ 1`: every available sample with epoch
strictly greater than `window.start` and at most `window.end` is collected,
and every collected epoch is an available in-window sample.  The sample at
exactly `window.start` is the one the original claim wrongly covers: it can
be missed when a page boundary makes the cursor reach `window.start` exactly
(see the counterexample). -/
theorem claim_C1_completeness (hist : List Int) (f : Int → Int)
    (pip cap : Nat) (sym : String) (s e : Int) (hcap : 1 ≤ cap)
    (hsorted : hist.Pairwise (· < ·)) :
    (∀ h ∈ hist, s < h → h ≤ e →
        h ∈ epochsOf (fetch_ticks_for_period (simSrc hist f pip cap) sym s e)) ∧
    (∀ x ∈ epochsOf (fetch_ticks_for_period (simSrc hist f pip cap) sym s e),
        x ∈ hist ∧ s ≤ x ∧ x ≤ e) := by
  constructor
  · intro h hh hsh hhe
    unfold fetch_ticks_for_period fetchTicksForPeriodEx
    exact fetchLoop_sim_complete hcap hsorted _ e [] (by omega) le_rfl h hh hsh hhe
  · intro x hx
    unfold fetch_ticks_for_period fetchTicksForPeriodEx at hx
    rcases fetchLoop_sim_sound _ e [] x hx with h0 | hgood
    · exact absurd h0 (by simp [epochsOf])
    · exact hgood

theorem claim_C1_completeness_witness :
    (1 ≤ 2 ∧ ([(5 : Int), 7]).Pairwise (· < ·)) ∧
    (7 : Int) ∈ epochsOf
      (fetch_ticks_for_period (simSrc [5, 7] (fun _ => 0) 2 2) "R_10" 4 10) :=
  ⟨⟨by decide, by decide⟩,
   (claim_C1_completeness [5, 7] (fun _ => 0) 2 2 "R_10" 4 10 (by decide)
      (by decide)).1 7 (by decide) (by decide) (by decide)⟩

/-- C1 (counterexample): the claim as stated is false at the left window
edge.  Concrete input: history `0, 1, ..., 5000` (5001 samples), window
`[0, 5000]`, a source answering every request in full up to the code's
requested `count = 5000` (page cap 5000, i.e. `min pageCap req.count =
req.count`: no page loses samples and no non-exhausted range returns fewer
than available).  The first page covers epochs `1..5000`, its oldest epoch
is `1`, so the cursor becomes `0 = window.start` and the loop stops: the
available in-window sample at epoch `0` is never collected. -/
theorem claim_C1_boundary_counterexample :
    (0 : Int) ∈ availIn (intRange 0 5001) 0 5000 ∧
    (0 : Int) ∉ epochsOf (fetch_ticks_for_period
        (simSrc (intRange 0 5001) (fun _ => 0) 2 5000) "R_10" 0 5000) := by
  have hav : availIn (intRange 0 5001) 0 5000 = intRange 0 5001 := by
    unfold availIn
    apply List.filter_eq_self.mpr
    intro x hx
    have hb := (mem_intRange 5001 0 x).mp hx
    simp only [decide_eq_true_eq]
    omega
  have hpage : simPage (intRange 0 5001) 5000 0 5000 = intRange 1 5000 := by
    unfold simPage takeLast
    rw [hav, length_intRange]
    rw [show (5001 : Nat) - min 5000 5000 = 1 by norm_num]
    rfl
  have hsrc1 : simSrc (intRange 0 5001) (fun _ => 0) 2 5000 (mkReq "R_10" 0 5000)
      = .ok (1 :: intRange 2 4999) ((1 :: intRange 2 4999).map (fun _ => 0))
          (some 2) := by
    rw [simSrc_mkReq, hpage]
    rfl
  have hloop : fetchTicksForPeriodEx
      (simSrc (intRange 0 5001) (fun _ => 0) 2 5000) "R_10" 0 5000
      = ⟨pageTicks "R_10" 0 5000 2 (1 :: intRange 2 4999)
          ((1 :: intRange 2 4999).map (fun _ => 0)), .cursorDone⟩ := by
    unfold fetchTicksForPeriodEx
    rw [show ((5000 : Int) - 0).toNat + 1 = 5000 + 1 by decide]
    rw [fetchLoop_okStep (by norm_num) hsrc1 (by norm_num)]
    rw [show (1 : Int) - 1 = 0 by norm_num]
    rw [show (5000 : Nat) = 4999 + 1 by norm_num]
    rw [fetchLoop_stop (by norm_num)]
    rw [List.nil_append]
    rfl
  constructor
  · rw [hav]
    exact (mem_intRange 5001 0 0).mpr (by omega)
  · unfold fetch_ticks_for_period
    rw [hloop]
    show (0 : Int) ∉ epochsOf (pageTicks "R_10" 0 5000 2 (1 :: intRange 2 4999)
      ((1 :: intRange 2 4999).map (fun _ => 0)))
    rw [epochs_pageTicks_map]
    intro hmem
    have h0 : (0 : Int) ∈ 1 :: intRange 2 4999 := (List.mem_filter.mp hmem).1
    rcases List.mem_cons.mp h0 with h | h
    · exact absurd h (by norm_num)
    · have := (mem_intRange 4999 2 0).mp h
      omega
